import Mathlib

/-!
Verification development for the Chocobo1/Hash incremental hash library
(`sm3.h` containing SM3 and SHA2-256, `sha2_512_224.h`, `tuple_hash.h`).

The C++ classes share one streaming/padding engine: a pending byte buffer
`m_buffer`, a byte counter `m_sizeCounter`, and a chaining state, with
`addData`, `addDataImpl`, `finalize`, `reset`, `toVector`, `toString`.
The engine is embedded once, parameterised by the per-algorithm data
(block size, length-field width, counter modulus, compression function,
initial chaining value), and instantiated three times with the literally
transcribed compression functions.

Machine integers are modelled as `Nat` with explicit `% 2^w` at the points
where the C++ code performs wrapping arithmetic.
-/

namespace Chocobo1

/-- Bytes are `Nat` values; all values produced by the embedded code are `< 256`. -/
abbrev Byte := Nat

/-- Chaining state of all three algorithms: eight machine words. -/
abbrev Words8 := Nat × Nat × Nat × Nat × Nat × Nat × Nat × Nat

/-- State held by each hash object: the pending buffer `m_buffer`, the byte
counter `m_sizeCounter` and the chaining value `m_v` (called `m_h` in the
SHA-2 classes). -/
@[ext]
structure HashState (σ : Type) where
  m_buffer : List Byte
  m_sizeCounter : Nat
  m_v : σ
deriving Repr, DecidableEq

/-- Per-algorithm parameters of the shared engine: `BLOCK_SIZE`, the byte
width of the big-endian length field appended by `finalize`, the modulus of
the size counter (`2^64` for the `uint64_t` counter of SM3/SHA2-256,
`2^128` for the `Uint128` counter of SHA2-512-224), the block compression
function and the initial chaining constants. -/
structure HashAlg (σ : Type) where
  BLOCK_SIZE : Nat
  lenFieldSize : Nat
  counterMod : Nat
  compressBlock : σ → List Byte → σ
  initV : σ

variable {σ : Type}

/-- Big-endian serialization of a value into a fixed number of bytes
(most significant byte first). -/
def beBytesFixed : Nat → Nat → List Byte
  | 0, _ => []
  | n + 1, v => beBytesFixed n (v >>> 8) ++ [v &&& 255]

/-- Big-endian interpretation of a byte string (used to state what the
length-encoding helpers of `tuple_hash.h` produce). -/
def beVal (l : List Byte) : Nat :=
  l.foldl (fun acc b => acc * 256 + b) 0

namespace Hash

/-- Loop body of `addDataImpl`: `for (i = 0; i < data.size() / BLOCK_SIZE; ++i)`
compress the `i`-th `BLOCK_SIZE`-byte chunk of `data` into the chaining value.
A trailing partial chunk is never consumed by the loop. -/
def processBlocks (A : HashAlg σ) (v : σ) (data : List Byte) : σ :=
  (List.range (data.length / A.BLOCK_SIZE)).foldl
    (fun w i => A.compressBlock w ((data.drop (i * A.BLOCK_SIZE)).take A.BLOCK_SIZE)) v

/-- The private `addDataImpl`: adds `data.size()` to the size counter
(wrapping at the counter's modulus) and compresses each full block of `data`. -/
def addDataImpl (A : HashAlg σ) (s : HashState σ) (data : List Byte) : HashState σ :=
  { s with
    m_sizeCounter := (s.m_sizeCounter + data.length) % A.counterMod
    m_v := processBlocks A s.m_v data }

/-- Tail of `addData`, reached with an empty pending buffer: stash short input
in the buffer, otherwise compress the `BLOCK_SIZE`-aligned prefix directly and
stash the remainder. -/
def addDataTail (A : HashAlg σ) (s : HashState σ) (data : List Byte) : HashState σ :=
  if data.length < A.BLOCK_SIZE then
    { s with m_buffer := data }
  else
    let len := data.length - data.length % A.BLOCK_SIZE
    let s1 := addDataImpl A s (data.take len)
    if len < data.length then { s1 with m_buffer := data.drop len } else s1

/-- The public `addData(Span)`: if the pending buffer is non-empty, top it up
to `BLOCK_SIZE` bytes; if it fills, compress and clear it, then continue with
the rest of the input as in the empty-buffer case. -/
def addData (A : HashAlg σ) (s : HashState σ) (inData : List Byte) : HashState σ :=
  if s.m_buffer = [] then
    addDataTail A s inData
  else
    let len := min (A.BLOCK_SIZE - s.m_buffer.length) inData.length
    let buf := s.m_buffer ++ inData.take len
    if buf.length < A.BLOCK_SIZE then
      { s with m_buffer := buf }
    else
      let s1 := addDataImpl A s buf
      addDataTail A { s1 with m_buffer := [] } (inData.drop len)

/-- The buffer contents built by `finalize` just before its final
`addDataImpl` call: pending bytes, the `0x80` byte, `BLOCK_SIZE -
((m_buffer.size() + lenFieldSize) % BLOCK_SIZE)` zero bytes, and the
big-endian bit length `m_sizeCounter * 8` (wrapping at the counter width)
overwriting the last `lenFieldSize` bytes. -/
def paddedMessage (A : HashAlg σ) (s : HashState σ) : List Byte :=
  let c := (s.m_sizeCounter + s.m_buffer.length) % A.counterMod
  let buf1 := s.m_buffer ++ [128]
  let len := A.BLOCK_SIZE - ((buf1.length + A.lenFieldSize) % A.BLOCK_SIZE)
  let buf2 := buf1 ++ List.replicate (len + A.lenFieldSize) 0
  buf2.take (buf2.length - A.lenFieldSize) ++ beBytesFixed A.lenFieldSize ((c * 8) % A.counterMod)

/-- The public `finalize()`: adds the pending length to the counter, builds the
padded buffer, compresses it via `addDataImpl`, and clears the buffer. -/
def finalize (A : HashAlg σ) (s : HashState σ) : HashState σ :=
  let s0 : HashState σ :=
    { s with m_sizeCounter := (s.m_sizeCounter + s.m_buffer.length) % A.counterMod }
  let s1 := addDataImpl A s0 (paddedMessage A s)
  { s1 with m_buffer := [] }

/-- The public `reset()`: clears the buffer, zeroes the counter and restores
the algorithm's initial chaining constants — every field is overwritten. -/
def reset (A : HashAlg σ) (_s : HashState σ) : HashState σ :=
  { m_buffer := [], m_sizeCounter := 0, m_v := A.initV }

/-- State of a freshly constructed object (the constructor only reserves
buffer capacity and calls `reset()`). -/
def initState (A : HashAlg σ) : HashState σ :=
  reset A { m_buffer := [], m_sizeCounter := 0, m_v := A.initV }

/-- Canonical state after absorbing the byte sequence `m` from a fresh object:
all full blocks compressed, the trailing partial block pending, and the
counter holding the number of compressed bytes. -/
def absorbedOf (A : HashAlg σ) (m : List Byte) : HashState σ :=
  { m_buffer := m.drop (m.length - m.length % A.BLOCK_SIZE)
    m_sizeCounter := (m.length - m.length % A.BLOCK_SIZE) % A.counterMod
    m_v := processBlocks A A.initV (m.take (m.length - m.length % A.BLOCK_SIZE)) }

end Hash

/-- Lowercase hex digit of a value `< 16`, as produced by `snprintf("%02x")`. -/
def hexDigit (n : Nat) : Char :=
  if n < 10 then Char.ofNat (48 + n) else Char.ofNat (87 + n)

/-- The `toString()` rendering: two lowercase hex characters per digest byte. -/
def bytesToHex (v : List Byte) : String :=
  v.foldl (fun ret b => ret ++ String.mk [hexDigit (b / 16 % 16), hexDigit (b % 16)]) ""

/-- The helper `ror<Byte>(x, s)`: shift right and mask to one byte. -/
def rorByte (x s : Nat) : Byte :=
  (x >>> s) &&& 255

/-- The helper `rotl` on `uint32_t`. -/
def rotl32 (x s : Nat) : Nat :=
  if s = 0 then x else ((x <<< s) % 2 ^ 32) ||| (x >>> (32 - s))

/-- The helper `rotr` on `uint32_t`. -/
def rotr32 (x s : Nat) : Nat :=
  if s = 0 then x else (x >>> s) ||| ((x <<< (32 - s)) % 2 ^ 32)

/-- The helper `rotr` on `uint64_t` (in `sha2_512_224.h`). -/
def rotr64 (x s : Nat) : Nat :=
  if s = 0 then x else (x >>> s) ||| ((x <<< (64 - s)) % 2 ^ 64)

/-- The `Loader<uint32_t>` helper: big-endian 32-bit word at index `idx`. -/
def load32 (data : List Byte) (idx : Nat) : Nat :=
  (data.getD (4 * idx) 0 <<< 24) ||| (data.getD (4 * idx + 1) 0 <<< 16) |||
    (data.getD (4 * idx + 2) 0 <<< 8) ||| data.getD (4 * idx + 3) 0

/-- The `Loader<uint64_t>` helper of `sha2_512_224.h`: big-endian 64-bit word. -/
def load64 (data : List Byte) (idx : Nat) : Nat :=
  (data.getD (8 * idx) 0 <<< 56) ||| (data.getD (8 * idx + 1) 0 <<< 48) |||
    (data.getD (8 * idx + 2) 0 <<< 40) ||| (data.getD (8 * idx + 3) 0 <<< 32) |||
    (data.getD (8 * idx + 4) 0 <<< 24) ||| (data.getD (8 * idx + 5) 0 <<< 16) |||
    (data.getD (8 * idx + 6) 0 <<< 8) ||| data.getD (8 * idx + 7) 0

namespace SM3

/-- SM3 `permutation0`: `x ^ rotl(x,9) ^ rotl(x,17)`. -/
def permutation0 (x : Nat) : Nat :=
  x ^^^ rotl32 x 9 ^^^ rotl32 x 17

/-- SM3 `permutation1`: `x ^ rotl(x,15) ^ rotl(x,23)`. -/
def permutation1 (x : Nat) : Nat :=
  x ^^^ rotl32 x 15 ^^^ rotl32 x 23

/-- The 64 per-round constants passed as `tTable` to the round calls of
`SM3::addDataImpl`, in call order. -/
def tTable : List Nat :=
  [0x79cc4519, 0xf3988a32, 0xe7311465, 0xce6228cb, 0x9cc45197, 0x3988a32f, 0x7311465e, 0xe6228cbc,
   0xcc451979, 0x988a32f3, 0x311465e7, 0x6228cbce, 0xc451979c, 0x88a32f39, 0x11465e73, 0x228cbce6,
   0x9d8a7a87, 0x3b14f50f, 0x7629ea1e, 0xec53d43c, 0xd8a7a879, 0xb14f50f3, 0x629ea1e7, 0xc53d43ce,
   0x8a7a879d, 0x14f50f3b, 0x29ea1e76, 0x53d43cec, 0xa7a879d8, 0x4f50f3b1, 0x9ea1e762, 0x3d43cec5,
   0x7a879d8a, 0xf50f3b14, 0xea1e7629, 0xd43cec53, 0xa879d8a7, 0x50f3b14f, 0xa1e7629e, 0x43cec53d,
   0x879d8a7a, 0x0f3b14f5, 0x1e7629ea, 0x3cec53d4, 0x79d8a7a8, 0xf3b14f50, 0xe7629ea1, 0xcec53d43,
   0x9d8a7a87, 0x3b14f50f, 0x7629ea1e, 0xec53d43c, 0xd8a7a879, 0xb14f50f3, 0x629ea1e7, 0xc53d43ce,
   0x8a7a879d, 0x14f50f3b, 0x29ea1e76, 0x53d43cec, 0xa7a879d8, 0x4f50f3b1, 0x9ea1e762, 0x3d43cec5]

/-- The `sm3Round1` lambda (rounds 0–15). Arguments are the formal parameters
`(a..h)`; the result is the tuple of the four mutated references
`(b', d', f', h')`. `wt`/`wt4` are `expanedMsg[t]`/`expanedMsg[t+4]`. -/
def sm3Round1 (wt wt4 tT a b c d e f g h : Nat) : Nat × Nat × Nat × Nat :=
  let wPrime := wt ^^^ wt4
  let tmpA := rotl32 a 12
  let ss1 := rotl32 ((tmpA + e + tT) % 2 ^ 32) 7
  let ss2 := ss1 ^^^ tmpA
  let tt1 := ((a ^^^ b ^^^ c) + d + ss2 + wPrime) % 2 ^ 32
  let tt2 := ((e ^^^ f ^^^ g) + h + ss1 + wt) % 2 ^ 32
  (rotl32 b 9, tt1, rotl32 f 19, permutation0 tt2)

/-- The `sm3Round2` lambda (rounds 16–63), with the alternative boolean forms
`(a&b)|(c&(a|b))` and `g^(e&(f^g))`. -/
def sm3Round2 (wt wt4 tT a b c d e f g h : Nat) : Nat × Nat × Nat × Nat :=
  let wPrime := wt ^^^ wt4
  let tmpA := rotl32 a 12
  let ss1 := rotl32 ((tmpA + e + tT) % 2 ^ 32) 7
  let ss2 := ss1 ^^^ tmpA
  let tt1 := (((a &&& b) ||| (c &&& (a ||| b))) + d + ss2 + wPrime) % 2 ^ 32
  let tt2 := ((g ^^^ (e &&& (f ^^^ g))) + h + ss1 + wt) % 2 ^ 32
  (rotl32 b 9, tt1, rotl32 f 19, permutation0 tt2)

/-- Four consecutive round calls starting at round `t`. The argument rotation
of the source repeats with period 4: `(a,b,c,d,e,f,g,h)`, `(d,a,b,c,h,e,f,g)`,
`(c,d,a,b,g,h,e,f)`, `(b,c,d,a,f,g,h,e)`; each call returns its mutated
references, bound here to the registers they alias. -/
def sm3Quad (rnd : Nat → Nat → Nat → Nat → Nat → Nat → Nat → Nat → Nat → Nat → Nat →
    Nat × Nat × Nat × Nat) (w : Nat → Nat) (t : Nat) (r : Words8) : Words8 :=
  let (a, b, c, d, e, f, g, h) := r
  let (b1, d1, f1, h1) := rnd (w t) (w (t + 4)) (tTable.getD t 0) a b c d e f g h
  let (a1, c1, e1, g1) := rnd (w (t + 1)) (w (t + 5)) (tTable.getD (t + 1) 0) d1 a b1 c h1 e f1 g
  let (d2, b2, h2, f2) := rnd (w (t + 2)) (w (t + 6)) (tTable.getD (t + 2) 0) c1 d1 a1 b1 g1 h1 e1 f1
  let (c2, a2, g2, e2) := rnd (w (t + 3)) (w (t + 7)) (tTable.getD (t + 3) 0) b2 c1 d2 a1 f2 g1 h2 e1
  (a2, b2, c2, d2, e2, f2, g2, h2)

/-- The message expansion `expanedMsg[0..67]` of `SM3::addDataImpl`. -/
def expanedMsg (block : List Byte) : Array Nat :=
  let loaded := ((List.range 16).map fun t => load32 block t).toArray
  (List.range 52).foldl
    (fun w _ =>
      let t := w.size
      w.push (permutation1 (rotl32 (w.getD (t - 3) 0) 15 ^^^ w.getD (t - 9) 0 ^^^ w.getD (t - 16) 0)
        ^^^ rotl32 (w.getD (t - 13) 0) 7 ^^^ w.getD (t - 6) 0))
    loaded

/-- The body of `SM3::addDataImpl` for one 64-byte block: message expansion,
the 16 `sm3Round1` calls, the 48 `sm3Round2` calls (four calls per `sm3Quad`),
and the final XOR-fold into the chaining value. -/
def compress (v : Words8) (block : List Byte) : Words8 :=
  let msg := expanedMsg block
  let w := fun t => msg.getD t 0
  let (a0, b0, c0, d0, e0, f0, g0, h0) := v
  let (a, b, c, d, e, f, g, h) :=
    (List.range 16).foldl
      (fun r q => sm3Quad (if q < 4 then sm3Round1 else sm3Round2) w (4 * q) r)
      (a0, b0, c0, d0, e0, f0, g0, h0)
  (a0 ^^^ a, b0 ^^^ b, c0 ^^^ c, d0 ^^^ d, e0 ^^^ e, f0 ^^^ f, g0 ^^^ g, h0 ^^^ h)

/-- The chaining constants set by `SM3::reset()`. -/
def initV : Words8 :=
  (0x7380166f, 0x4914b2b9, 0x172442d7, 0xda8a0600, 0xa96f30bc, 0x163138aa, 0xe38dee4d, 0xb0fb0e4e)

/-- The SM3 instantiation of the shared engine: 64-byte blocks, 8-byte
length field, `uint64_t` size counter. -/
def alg : HashAlg Words8 :=
  { BLOCK_SIZE := 64, lenFieldSize := 8, counterMod := 2 ^ 64
    compressBlock := compress, initV := initV }

/-- The `SM3::toVector()` loop: big-endian serialization of all eight
32-bit state words. -/
def toVector (s : HashState Words8) : List Byte :=
  let (v0, v1, v2, v3, v4, v5, v6, v7) := s.m_v
  [v0, v1, v2, v3, v4, v5, v6, v7].foldl
    (fun ret i => ret ++ ((List.range 4).map fun jr => rorByte i ((3 - jr) * 8))) []

/-- Digest bytes of a message absorbed in one `addData` call from a fresh
object and finalized. -/
def hashVector (msg : List Byte) : List Byte :=
  toVector (Hash.finalize alg (Hash.addData alg (Hash.initState alg) msg))

/-- The `toString()` digest of a message. -/
def hashHex (msg : List Byte) : String :=
  bytesToHex (hashVector msg)

end SM3

namespace SHA2_256

/-- The `kTable` of `SHA2_256::addDataImpl`. -/
def kTable : List Nat :=
  [0x428a2f98, 0x71374491, 0xb5c0fbcf, 0xe9b5dba5] ++
  [0x3956c25b, 0x59f111f1, 0x923f82a4, 0xab1c5ed5] ++
  [0xd807aa98, 0x12835b01, 0x243185be, 0x550c7dc3] ++
  [0x72be5d74, 0x80deb1fe, 0x9bdc06a7, 0xc19bf174] ++
  [0xe49b69c1, 0xefbe4786, 0x0fc19dc6, 0x240ca1cc] ++
  [0x2de92c6f, 0x4a7484aa, 0x5cb0a9dc, 0x76f988da] ++
  [0x983e5152, 0xa831c66d, 0xb00327c8, 0xbf597fc7] ++
  [0xc6e00bf3, 0xd5a79147, 0x06ca6351, 0x14292967] ++
  [0x27b70a85, 0x2e1b2138, 0x4d2c6dfc, 0x53380d13] ++
  [0x650a7354, 0x766a0abb, 0x81c2c92e, 0x92722c85] ++
  [0xa2bfe8a1, 0xa81a664b, 0xc24b8b70, 0xc76c51a3] ++
  [0xd192e819, 0xd6990624, 0xf40e3585, 0x106aa070] ++
  [0x19a4c116, 0x1e376c08, 0x2748774c, 0x34b0bcb5] ++
  [0x391c0cb3, 0x4ed8aa4a, 0x5b9cca4f, 0x682e6ff3] ++
  [0x748f82ee, 0x78a5636f, 0x84c87814, 0x8cc70208] ++
  [0x90befffa, 0xa4506ceb, 0xbef9a3f7, 0xc67178f2]

/-- `ssig0`: `rotr(x,7) ^ rotr(x,18) ^ (x >> 3)`. -/
def ssig0 (x : Nat) : Nat :=
  rotr32 x 7 ^^^ rotr32 x 18 ^^^ (x >>> 3)

/-- `ssig1`: `rotr(x,17) ^ rotr(x,19) ^ (x >> 10)`. -/
def ssig1 (x : Nat) : Nat :=
  rotr32 x 17 ^^^ rotr32 x 19 ^^^ (x >>> 10)

/-- The `round` lambda of `SHA2_256::addDataImpl`, on its formal parameters
`(a..h)` with `Ch`, `Maj`, `Σ0`, `Σ1` in the source's alternative boolean
forms; the body `h = t1; d += h; h += t2` mutates only `d` and `h`, returned
here as the pair `(d', h')`. -/
def round (kt wt a b c d e f g h : Nat) : Nat × Nat :=
  let ch := (e &&& (f ^^^ g)) ^^^ g
  let maj := (a &&& (b ||| c)) ||| (b &&& c)
  let bsig0 := rotr32 a 2 ^^^ rotr32 a 13 ^^^ rotr32 a 22
  let bsig1 := rotr32 e 6 ^^^ rotr32 e 11 ^^^ rotr32 e 25
  let t1 := (h + bsig1 + ch + kt + wt) % 2 ^ 32
  let t2 := (bsig0 + maj) % 2 ^ 32
  ((d + t1) % 2 ^ 32, (t1 + t2) % 2 ^ 32)

/-- One iteration of the `for (t = 0; t < 8; ++t)` loop: eight round calls
with the argument rotation `(a..h)`, `(h,a,..,g)`, …, `(b,c,..,a)`; each
call's mutated references `(d', h')` are bound to the registers they alias. -/
def group (w : Nat → Nat) (t : Nat) (r : Words8) : Words8 :=
  let (a, b, c, d, e, f, g, h) := r
  let k := fun i => kTable.getD i 0
  let (d1, h1) := round (k (8 * t)) (w (8 * t)) a b c d e f g h
  let (c1, g1) := round (k (8 * t + 1)) (w (8 * t + 1)) h1 a b c d1 e f g
  let (b1, f1) := round (k (8 * t + 2)) (w (8 * t + 2)) g1 h1 a b c1 d1 e f
  let (a1, e1) := round (k (8 * t + 3)) (w (8 * t + 3)) f1 g1 h1 a b1 c1 d1 e
  let (h2, d2) := round (k (8 * t + 4)) (w (8 * t + 4)) e1 f1 g1 h1 a1 b1 c1 d1
  let (g2, c2) := round (k (8 * t + 5)) (w (8 * t + 5)) d2 e1 f1 g1 h2 a1 b1 c1
  let (f2, b2) := round (k (8 * t + 6)) (w (8 * t + 6)) c2 d2 e1 f1 g2 h2 a1 b1
  let (e2, a2) := round (k (8 * t + 7)) (w (8 * t + 7)) b2 c2 d2 e1 f2 g2 h2 a1
  (a2, b2, c2, d2, e2, f2, g2, h2)

/-- The message schedule `wTable[0..63]`. -/
def wTable (block : List Byte) : Array Nat :=
  let loaded := ((List.range 16).map fun t => load32 block t).toArray
  (List.range 48).foldl
    (fun w _ =>
      let t := w.size
      w.push ((ssig1 (w.getD (t - 2) 0) + w.getD (t - 7) 0 + ssig0 (w.getD (t - 15) 0)
        + w.getD (t - 16) 0) % 2 ^ 32))
    loaded

/-- The body of `SHA2_256::addDataImpl` for one 64-byte block, with the
final additive fold into the chaining value (mod `2^32`). -/
def compress (v : Words8) (block : List Byte) : Words8 :=
  let msg := wTable block
  let w := fun t => msg.getD t 0
  let (a0, b0, c0, d0, e0, f0, g0, h0) := v
  let (a, b, c, d, e, f, g, h) :=
    (List.range 8).foldl (fun r t => group w t r) (a0, b0, c0, d0, e0, f0, g0, h0)
  ((a0 + a) % 2 ^ 32, (b0 + b) % 2 ^ 32, (c0 + c) % 2 ^ 32, (d0 + d) % 2 ^ 32,
   (e0 + e) % 2 ^ 32, (f0 + f) % 2 ^ 32, (g0 + g) % 2 ^ 32, (h0 + h) % 2 ^ 32)

/-- The chaining constants set by `SHA2_256::reset()`. -/
def initV : Words8 :=
  (0x6a09e667, 0xbb67ae85, 0x3c6ef372, 0xa54ff53a, 0x510e527f, 0x9b05688c, 0x1f83d9ab, 0x5be0cd19)

/-- The SHA2-256 instantiation of the shared engine. -/
def alg : HashAlg Words8 :=
  { BLOCK_SIZE := 64, lenFieldSize := 8, counterMod := 2 ^ 64
    compressBlock := compress, initV := initV }

/-- The `SHA2_256::toVector()` loop: big-endian serialization of all eight
32-bit state words. -/
def toVector (s : HashState Words8) : List Byte :=
  let (v0, v1, v2, v3, v4, v5, v6, v7) := s.m_v
  [v0, v1, v2, v3, v4, v5, v6, v7].foldl
    (fun ret i => ret ++ ((List.range 4).map fun jr => rorByte i ((3 - jr) * 8))) []

/-- Digest bytes of a message absorbed in one `addData` call and finalized. -/
def hashVector (msg : List Byte) : List Byte :=
  toVector (Hash.finalize alg (Hash.addData alg (Hash.initState alg) msg))

/-- The `toString()` digest of a message. -/
def hashHex (msg : List Byte) : String :=
  bytesToHex (hashVector msg)

end SHA2_256

namespace SHA2_512_224

/-- The `kTable` of `SHA2_512_224::addDataImpl` (80 entries). -/
def kTable : List Nat :=
  [0x428a2f98d728ae22, 0x7137449123ef65cd, 0xb5c0fbcfec4d3b2f, 0xe9b5dba58189dbbc] ++
  [0x3956c25bf348b538, 0x59f111f1b605d019, 0x923f82a4af194f9b, 0xab1c5ed5da6d8118] ++
  [0xd807aa98a3030242, 0x12835b0145706fbe, 0x243185be4ee4b28c, 0x550c7dc3d5ffb4e2] ++
  [0x72be5d74f27b896f, 0x80deb1fe3b1696b1, 0x9bdc06a725c71235, 0xc19bf174cf692694] ++
  [0xe49b69c19ef14ad2, 0xefbe4786384f25e3, 0x0fc19dc68b8cd5b5, 0x240ca1cc77ac9c65] ++
  [0x2de92c6f592b0275, 0x4a7484aa6ea6e483, 0x5cb0a9dcbd41fbd4, 0x76f988da831153b5] ++
  [0x983e5152ee66dfab, 0xa831c66d2db43210, 0xb00327c898fb213f, 0xbf597fc7beef0ee4] ++
  [0xc6e00bf33da88fc2, 0xd5a79147930aa725, 0x06ca6351e003826f, 0x142929670a0e6e70] ++
  [0x27b70a8546d22ffc, 0x2e1b21385c26c926, 0x4d2c6dfc5ac42aed, 0x53380d139d95b3df] ++
  [0x650a73548baf63de, 0x766a0abb3c77b2a8, 0x81c2c92e47edaee6, 0x92722c851482353b] ++
  [0xa2bfe8a14cf10364, 0xa81a664bbc423001, 0xc24b8b70d0f89791, 0xc76c51a30654be30] ++
  [0xd192e819d6ef5218, 0xd69906245565a910, 0xf40e35855771202a, 0x106aa07032bbd1b8] ++
  [0x19a4c116b8d2d0c8, 0x1e376c085141ab53, 0x2748774cdf8eeb99, 0x34b0bcb5e19b48a8] ++
  [0x391c0cb3c5c95a63, 0x4ed8aa4ae3418acb, 0x5b9cca4f7763e373, 0x682e6ff3d6b2b8a3] ++
  [0x748f82ee5defb2fc, 0x78a5636f43172f60, 0x84c87814a1f0ab72, 0x8cc702081a6439ec] ++
  [0x90befffa23631e28, 0xa4506cebde82bde9, 0xbef9a3f7b2c67915, 0xc67178f2e372532b] ++
  [0xca273eceea26619c, 0xd186b8c721c0c207, 0xeada7dd6cde0eb1e, 0xf57d4f7fee6ed178] ++
  [0x06f067aa72176fba, 0x0a637dc5a2c898a6, 0x113f9804bef90dae, 0x1b710b35131c471b] ++
  [0x28db77f523047d84, 0x32caab7b40c72493, 0x3c9ebe0a15c9bebc, 0x431d67c49c100d4c] ++
  [0x4cc5d4becb3e42b6, 0x597f299cfc657e2a, 0x5fcb6fab3ad6faec, 0x6c44198c4a475817]

/-- `ssig0`: `rotr(x,1) ^ rotr(x,8) ^ (x >> 7)`. -/
def ssig0 (x : Nat) : Nat :=
  rotr64 x 1 ^^^ rotr64 x 8 ^^^ (x >>> 7)

/-- `ssig1`: `rotr(x,19) ^ rotr(x,61) ^ (x >> 6)`. -/
def ssig1 (x : Nat) : Nat :=
  rotr64 x 19 ^^^ rotr64 x 61 ^^^ (x >>> 6)

/-- The `round` lambda of `SHA2_512_224::addDataImpl` on 64-bit words;
returns the mutated pair `(d', h')`. -/
def round (kt wt a b c d e f g h : Nat) : Nat × Nat :=
  let ch := (e &&& (f ^^^ g)) ^^^ g
  let maj := (a &&& (b ||| c)) ||| (b &&& c)
  let bsig0 := rotr64 a 28 ^^^ rotr64 a 34 ^^^ rotr64 a 39
  let bsig1 := rotr64 e 14 ^^^ rotr64 e 18 ^^^ rotr64 e 41
  let t1 := (h + bsig1 + ch + kt + wt) % 2 ^ 64
  let t2 := (bsig0 + maj) % 2 ^ 64
  ((d + t1) % 2 ^ 64, (t1 + t2) % 2 ^ 64)

/-- One iteration of the `for (t = 0; t < 10; ++t)` loop of eight rotating
round calls. -/
def group (w : Nat → Nat) (t : Nat) (r : Words8) : Words8 :=
  let (a, b, c, d, e, f, g, h) := r
  let k := fun i => kTable.getD i 0
  let (d1, h1) := round (k (8 * t)) (w (8 * t)) a b c d e f g h
  let (c1, g1) := round (k (8 * t + 1)) (w (8 * t + 1)) h1 a b c d1 e f g
  let (b1, f1) := round (k (8 * t + 2)) (w (8 * t + 2)) g1 h1 a b c1 d1 e f
  let (a1, e1) := round (k (8 * t + 3)) (w (8 * t + 3)) f1 g1 h1 a b1 c1 d1 e
  let (h2, d2) := round (k (8 * t + 4)) (w (8 * t + 4)) e1 f1 g1 h1 a1 b1 c1 d1
  let (g2, c2) := round (k (8 * t + 5)) (w (8 * t + 5)) d2 e1 f1 g1 h2 a1 b1 c1
  let (f2, b2) := round (k (8 * t + 6)) (w (8 * t + 6)) c2 d2 e1 f1 g2 h2 a1 b1
  let (e2, a2) := round (k (8 * t + 7)) (w (8 * t + 7)) b2 c2 d2 e1 f2 g2 h2 a1
  (a2, b2, c2, d2, e2, f2, g2, h2)

/-- The message schedule `wTable[0..79]`. -/
def wTable (block : List Byte) : Array Nat :=
  let loaded := ((List.range 16).map fun t => load64 block t).toArray
  (List.range 64).foldl
    (fun w _ =>
      let t := w.size
      w.push ((ssig1 (w.getD (t - 2) 0) + w.getD (t - 7) 0 + ssig0 (w.getD (t - 15) 0)
        + w.getD (t - 16) 0) % 2 ^ 64))
    loaded

/-- The body of `SHA2_512_224::addDataImpl` for one 128-byte block. -/
def compress (v : Words8) (block : List Byte) : Words8 :=
  let msg := wTable block
  let w := fun t => msg.getD t 0
  let (a0, b0, c0, d0, e0, f0, g0, h0) := v
  let (a, b, c, d, e, f, g, h) :=
    (List.range 10).foldl (fun r t => group w t r) (a0, b0, c0, d0, e0, f0, g0, h0)
  ((a0 + a) % 2 ^ 64, (b0 + b) % 2 ^ 64, (c0 + c) % 2 ^ 64, (d0 + d) % 2 ^ 64,
   (e0 + e) % 2 ^ 64, (f0 + f) % 2 ^ 64, (g0 + g) % 2 ^ 64, (h0 + h) % 2 ^ 64)

/-- The chaining constants set by `SHA2_512_224::reset()`. -/
def initV : Words8 :=
  (0x8C3D37C819544DA2, 0x73E1996689DCD4D6, 0x1DFAB7AE32FF9C82, 0x679DD514582F9FCF,
   0x0F6D2B697BD44DA8, 0x77E36F7304C48942, 0x3F9D85A86A1D36C8, 0x1112E6AD91D692A1)

/-- The SHA2-512-224 instantiation of the shared engine: 128-byte blocks,
16-byte length field, 128-bit (`Uint128`) size counter. -/
def alg : HashAlg Words8 :=
  { BLOCK_SIZE := 128, lenFieldSize := 16, counterMod := 2 ^ 128
    compressBlock := compress, initV := initV }

/-- The `SHA2_512_224::toVector()` body: the loop serializes the three words
of `Span(m_h, 3)` big-endian, then the four `emplace_back` calls append the
top four bytes of `m_h[3]`. -/
def toVector (s : HashState Words8) : List Byte :=
  let (v0, v1, v2, v3, _, _, _, _) := s.m_v
  ([v0, v1, v2].foldl
    (fun ret i => ret ++ ((List.range 8).map fun jr => rorByte i ((7 - jr) * 8))) [])
    ++ [rorByte v3 56, rorByte v3 48, rorByte v3 40, rorByte v3 32]

/-- Digest bytes of a message absorbed in one `addData` call and finalized. -/
def hashVector (msg : List Byte) : List Byte :=
  toVector (Hash.finalize alg (Hash.addData alg (Hash.initState alg) msg))

/-- The `toString()` digest of a message. -/
def hashHex (msg : List Byte) : String :=
  bytesToHex (hashVector msg)

end SHA2_512_224

namespace SHA2_512_224

/-- The private 128-bit counter class of `sha2_512_224.h`: two `uint64_t`
halves. Fields hold values `< 2^64` whenever constructed by the class's
operations. -/
structure Uint128 where
  m_lo : Nat
  m_hi : Nat
deriving Repr, DecidableEq

/-- The default constructor: both halves zero. -/
def Uint128.mk0 : Uint128 :=
  { m_lo := 0, m_hi := 0 }

/-- The assignment `operator=(uint64_t n)`: low half `n`, high half zero. -/
def Uint128.assign (n : Nat) : Uint128 :=
  { m_lo := n, m_hi := 0 }

/-- The `operator*(unsigned int)` which only handles `* 8`: the top three bits
of the low half move into the high half, both halves shifted left by 3 with
`uint64_t` wrap-around. -/
def Uint128.mul8 (u : Uint128) : Uint128 :=
  let msb := (u.m_lo >>> 61) &&& 0xff
  { m_hi := ((u.m_hi <<< 3) % 2 ^ 64) ||| msb
    m_lo := (u.m_lo <<< 3) % 2 ^ 64 }

/-- The `operator+=(uint64_t n)`: wrapping add on the low half, carrying into
the high half exactly when the add wrapped. -/
def Uint128.addU64 (u : Uint128) (n : Nat) : Uint128 :=
  let newLo := (u.m_lo + n) % 2 ^ 64
  if newLo < u.m_lo then { m_lo := newLo, m_hi := (u.m_hi + 1) % 2 ^ 64 }
  else { u with m_lo := newLo }

/-- Value represented by a `Uint128`: `high * 2^64 + low`. -/
def Uint128.toNat (u : Uint128) : Nat :=
  u.m_hi * 2 ^ 64 + u.m_lo

end SHA2_512_224

namespace TupleHash

/-- Modelled from the spec: `leftEncode` lives in `cshake.h`, which is not
among the provided sources. Per the spec it is "a variable-length big-endian
encoding of `len(element)×8` bits, self-describing its own byte count as a
leading byte": the minimal big-endian byte string of the (`uint64_t`) value,
preceded by one byte holding the count of those bytes. -/
def leftEncode (value : Nat) : List Byte :=
  let n := 1 + (List.range 8).countP fun k => 256 ^ (k + 1) ≤ value
  n :: beBytesFixed n value

/-- The helper `rightEncode` of `tuple_hash.h`: take `leftEncode`'s output,
erase its front byte and append it at the back. -/
def rightEncode (value : Nat) : List Byte :=
  let ret := leftEncode value
  ret.drop 1 ++ [ret.headD 0]

/-- Modelled from the spec: the wrapped cSHAKE primitive (`cshake.h`, not
among the provided sources) is an external collaborator consumed only through
`addData`/`finalize`; it is modelled by the trace of bytes fed to it and its
finalized flag. -/
structure CShakeTrace where
  fed : List Byte
  finalized : Bool
deriving Repr, DecidableEq

/-- Modelled from the spec: the wrapped primitive's `addData` absorbs the
bytes in order. -/
def cshakeAddData (c : CShakeTrace) (data : List Byte) : CShakeTrace :=
  { c with fed := c.fed ++ data }

/-- Modelled from the spec: the wrapped primitive's `finalize`. -/
def cshakeFinalize (c : CShakeTrace) : CShakeTrace :=
  { c with finalized := true }

/-- State of a `TupleHash` object: the wrapped cSHAKE instance `m_cshake` and
the configured digest length in bytes (`unsigned int m_digestLength`). -/
structure State where
  m_cshake : CShakeTrace
  m_digestLength : Nat
deriving Repr, DecidableEq

/-- The private `TupleHash::addDataImpl`: forwards to the wrapped primitive. -/
def addDataImpl (t : State) (data : List Byte) : State :=
  { t with m_cshake := cshakeAddData t.m_cshake data }

/-- The public `TupleHash::nextData(Span)`: feed
`leftEncode(inData.size() * 8)` and then the element itself (the `size_t`
product wraps at `2^64`). -/
def nextData (t : State) (inData : List Byte) : State :=
  let encoded := leftEncode ((inData.length * 8) % 2 ^ 64)
  addDataImpl (addDataImpl t encoded) inData

/-- The public `TupleHash::finalize()`: feed
`rightEncode(m_digestLength * 8)` (an `unsigned int` product, wrapping at
`2^32`) and finalize the wrapped primitive. -/
def finalize (t : State) : State :=
  let t1 := addDataImpl t (rightEncode ((t.m_digestLength * 8) % 2 ^ 32))
  { t1 with m_cshake := cshakeFinalize t1.m_cshake }

end TupleHash

/-!
Helper lemmas about the shared engine.
-/

theorem foldlCongrMem {α β : Type} (l : List α) (f g : β → α → β) (b : β)
    (h : ∀ b x, x ∈ l → f b x = g b x) : l.foldl f b = l.foldl g b := by
  induction l generalizing b with
  | nil => rfl
  | cons x xs ih =>
    simp only [List.foldl_cons]
    rw [h b x (List.mem_cons_self x xs)]
    exact ih (g b x) fun b y hy => h b y (List.mem_cons_of_mem x hy)

theorem processBlocks_nil (A : HashAlg σ) (v : σ) : Hash.processBlocks A v [] = v := by
  simp [Hash.processBlocks]

theorem processBlocks_append (A : HashAlg σ) (v : σ) (d1 d2 : List Byte)
    (h : d1.length % A.BLOCK_SIZE = 0) :
    Hash.processBlocks A v (d1 ++ d2) =
      Hash.processBlocks A (Hash.processBlocks A v d1) d2 := by
  rcases Nat.eq_zero_or_pos A.BLOCK_SIZE with hB | hB
  · simp [Hash.processBlocks, hB]
  · have hL1 : A.BLOCK_SIZE * (d1.length / A.BLOCK_SIZE) = d1.length :=
      Nat.mul_div_cancel' (Nat.dvd_of_mod_eq_zero h)
    have hL1' : (d1.length / A.BLOCK_SIZE) * A.BLOCK_SIZE = d1.length := by
      rw [Nat.mul_comm] at hL1; exact hL1
    have hlen : (d1 ++ d2).length / A.BLOCK_SIZE =
        d1.length / A.BLOCK_SIZE + d2.length / A.BLOCK_SIZE := by
      rw [List.length_append]
      conv_lhs => rw [← hL1]
      rw [Nat.mul_add_div hB]
    unfold Hash.processBlocks
    rw [hlen, List.range_add, List.foldl_append, List.foldl_map]
    have step1 : (List.range (d1.length / A.BLOCK_SIZE)).foldl
        (fun w i => A.compressBlock w (((d1 ++ d2).drop (i * A.BLOCK_SIZE)).take A.BLOCK_SIZE)) v =
        (List.range (d1.length / A.BLOCK_SIZE)).foldl
        (fun w i => A.compressBlock w ((d1.drop (i * A.BLOCK_SIZE)).take A.BLOCK_SIZE)) v := by
      apply foldlCongrMem
      intro w i hi
      have hi' : i < d1.length / A.BLOCK_SIZE := List.mem_range.mp hi
      have hle : i * A.BLOCK_SIZE + A.BLOCK_SIZE ≤ d1.length := by
        calc i * A.BLOCK_SIZE + A.BLOCK_SIZE = (i + 1) * A.BLOCK_SIZE := by ring
          _ ≤ (d1.length / A.BLOCK_SIZE) * A.BLOCK_SIZE := Nat.mul_le_mul_right _ hi'
          _ = d1.length := hL1'
      rw [List.drop_append_of_le_length (by omega)]
      rw [List.take_append_of_le_length (by rw [List.length_drop]; omega)]
    rw [step1]
    apply foldlCongrMem
    intro w i _
    have hdrop : (d1 ++ d2).drop ((d1.length / A.BLOCK_SIZE + i) * A.BLOCK_SIZE) =
        d2.drop (i * A.BLOCK_SIZE) := by
      have : (d1.length / A.BLOCK_SIZE + i) * A.BLOCK_SIZE =
          d1.length + i * A.BLOCK_SIZE := by rw [Nat.add_mul, hL1']
      rw [this, List.drop_append_eq_append_drop, List.drop_eq_nil_of_le (by omega)]
      simp
    rw [hdrop]

theorem absorbedOf_nil (A : HashAlg σ) : Hash.absorbedOf A [] = Hash.initState A := by
  simp [Hash.absorbedOf, Hash.initState, Hash.reset, Hash.processBlocks]

theorem addDataTail_absorbedOf (A : HashAlg σ) (hB : 0 < A.BLOCK_SIZE) (m d : List Byte)
    (hr0 : m.length % A.BLOCK_SIZE = 0) :
    Hash.addDataTail A (Hash.absorbedOf A m) d = Hash.absorbedOf A (m ++ d) := by
  have hdam := Nat.div_add_mod m.length A.BLOCK_SIZE
  have hLL : A.BLOCK_SIZE * (m.length / A.BLOCK_SIZE) = m.length := by omega
  have htakeL : m.take (m.length - m.length % A.BLOCK_SIZE) = m := by
    rw [hr0, Nat.sub_zero, List.take_length]
  have hdropL : m.drop (m.length - m.length % A.BLOCK_SIZE) = [] := by
    rw [hr0, Nat.sub_zero, List.drop_length]
  have hmod : ∀ x : Nat, (m.length + x) % A.BLOCK_SIZE = x % A.BLOCK_SIZE := by
    intro x
    conv_lhs => rw [← hLL]
    rw [Nat.mul_add_mod]
  simp only [Hash.addDataTail, Hash.addDataImpl]
  by_cases hd : d.length < A.BLOCK_SIZE
  · rw [if_pos hd]
    have h1 : (m ++ d).length % A.BLOCK_SIZE = d.length := by
      rw [List.length_append, hmod, Nat.mod_eq_of_lt hd]
    have h2 : (m ++ d).length - (m ++ d).length % A.BLOCK_SIZE = m.length := by
      rw [h1, List.length_append]; omega
    apply HashState.ext
    · show d = (m ++ d).drop ((m ++ d).length - (m ++ d).length % A.BLOCK_SIZE)
      rw [h2, List.drop_left]
    · show (m.length - m.length % A.BLOCK_SIZE) % A.counterMod = ((m ++ d).length - (m ++ d).length % A.BLOCK_SIZE) % A.counterMod
      rw [h2, hr0, Nat.sub_zero]
    · show Hash.processBlocks A A.initV (m.take (m.length - m.length % A.BLOCK_SIZE)) =
        Hash.processBlocks A A.initV ((m ++ d).take ((m ++ d).length - (m ++ d).length % A.BLOCK_SIZE))
      rw [htakeL, h2, List.take_left]
  · rw [if_neg hd]
    have hlen1 : (d.take (d.length - d.length % A.BLOCK_SIZE)).length
        = d.length - d.length % A.BLOCK_SIZE := by
      rw [List.length_take]
      omega
    have h1 : (m ++ d).length % A.BLOCK_SIZE = d.length % A.BLOCK_SIZE := by
      rw [List.length_append, hmod]
    have hdm : d.length % A.BLOCK_SIZE ≤ d.length := Nat.mod_le _ _
    have h2 : (m ++ d).length - (m ++ d).length % A.BLOCK_SIZE
        = m.length + (d.length - d.length % A.BLOCK_SIZE) := by
      rw [h1, List.length_append]; omega
    have hvAux : Hash.processBlocks A A.initV
        ((m ++ d).take (m.length + (d.length - d.length % A.BLOCK_SIZE)))
        = Hash.processBlocks A
          (Hash.processBlocks A A.initV (m.take (m.length - m.length % A.BLOCK_SIZE)))
          (d.take (d.length - d.length % A.BLOCK_SIZE)) := by
      rw [htakeL, List.take_append_eq_append_take, List.take_of_length_le (by omega),
        Nat.add_sub_cancel_left]
      exact processBlocks_append A A.initV m _ hr0
    by_cases h3 : d.length - d.length % A.BLOCK_SIZE < d.length
    · rw [if_pos h3]
      apply HashState.ext
      · show d.drop (d.length - d.length % A.BLOCK_SIZE)
            = (m ++ d).drop ((m ++ d).length - (m ++ d).length % A.BLOCK_SIZE)
        rw [h2, List.drop_append_eq_append_drop,
          List.drop_eq_nil_of_le
            (by omega : m.length ≤ m.length + (d.length - d.length % A.BLOCK_SIZE)),
          List.nil_append, Nat.add_sub_cancel_left]
      · show ((m.length - m.length % A.BLOCK_SIZE) % A.counterMod
            + (d.take (d.length - d.length % A.BLOCK_SIZE)).length) % A.counterMod
            = ((m ++ d).length - (m ++ d).length % A.BLOCK_SIZE) % A.counterMod
        rw [hlen1, h2, hr0, Nat.sub_zero, Nat.mod_add_mod]
      · show Hash.processBlocks A
            (Hash.processBlocks A A.initV (m.take (m.length - m.length % A.BLOCK_SIZE)))
            (d.take (d.length - d.length % A.BLOCK_SIZE))
            = Hash.processBlocks A A.initV ((m ++ d).take ((m ++ d).length - (m ++ d).length % A.BLOCK_SIZE))
        rw [h2, hvAux]
    · rw [if_neg h3]
      have h4 : d.length % A.BLOCK_SIZE = 0 := by omega
      apply HashState.ext
      · show m.drop (m.length - m.length % A.BLOCK_SIZE)
            = (m ++ d).drop ((m ++ d).length - (m ++ d).length % A.BLOCK_SIZE)
        rw [hdropL, h2, List.drop_append_eq_append_drop,
          List.drop_eq_nil_of_le
            (by omega : m.length ≤ m.length + (d.length - d.length % A.BLOCK_SIZE)),
          List.nil_append, Nat.add_sub_cancel_left, h4, Nat.sub_zero, List.drop_length]
      · show ((m.length - m.length % A.BLOCK_SIZE) % A.counterMod
            + (d.take (d.length - d.length % A.BLOCK_SIZE)).length) % A.counterMod
            = ((m ++ d).length - (m ++ d).length % A.BLOCK_SIZE) % A.counterMod
        rw [hlen1, h2, hr0, Nat.sub_zero, Nat.mod_add_mod]
      · show Hash.processBlocks A
            (Hash.processBlocks A A.initV (m.take (m.length - m.length % A.BLOCK_SIZE)))
            (d.take (d.length - d.length % A.BLOCK_SIZE))
            = Hash.processBlocks A A.initV ((m ++ d).take ((m ++ d).length - (m ++ d).length % A.BLOCK_SIZE))
        rw [h2, hvAux]

theorem addData_absorbedOf (A : HashAlg σ) (hB : 0 < A.BLOCK_SIZE) (m d : List Byte) :
    Hash.addData A (Hash.absorbedOf A m) d = Hash.absorbedOf A (m ++ d) := by
  have hdam := Nat.div_add_mod m.length A.BLOCK_SIZE
  have hmlt : m.length % A.BLOCK_SIZE < A.BLOCK_SIZE := Nat.mod_lt _ hB
  have hbuf : (Hash.absorbedOf A m).m_buffer = m.drop (m.length - m.length % A.BLOCK_SIZE) := rfl
  have hbuflen : (Hash.absorbedOf A m).m_buffer.length = m.length % A.BLOCK_SIZE := by
    rw [hbuf, List.length_drop]; omega
  have hkmod : (m.length - m.length % A.BLOCK_SIZE) % A.BLOCK_SIZE = 0 := by
    have hsplit : m.length - m.length % A.BLOCK_SIZE
        = A.BLOCK_SIZE * (m.length / A.BLOCK_SIZE) := by omega
    rw [hsplit, Nat.mul_mod_right]
  have htkmod : (m.take (m.length - m.length % A.BLOCK_SIZE)).length % A.BLOCK_SIZE = 0 := by
    rw [List.length_take, Nat.min_eq_left (by omega)]
    exact hkmod
  by_cases hr0 : m.length % A.BLOCK_SIZE = 0
  · have hbe : (Hash.absorbedOf A m).m_buffer = [] := by
      rw [hbuf, hr0, Nat.sub_zero, List.drop_length]
    simp only [Hash.addData]
    rw [if_pos hbe]
    exact addDataTail_absorbedOf A hB m d hr0
  · have hbne : ¬ ((Hash.absorbedOf A m).m_buffer = []) := by
      intro hcon
      rw [hcon] at hbuflen
      simp only [List.length_nil] at hbuflen
      omega
    simp only [Hash.addData, Hash.addDataImpl]
    rw [if_neg hbne, hbuflen]
    by_cases hsmall : d.length < A.BLOCK_SIZE - m.length % A.BLOCK_SIZE
    · have hminEq : min (A.BLOCK_SIZE - m.length % A.BLOCK_SIZE) d.length = d.length :=
        Nat.min_eq_right (by omega)
      rw [hminEq, List.take_length]
      have hcond : ((Hash.absorbedOf A m).m_buffer ++ d).length < A.BLOCK_SIZE := by
        rw [List.length_append, hbuflen]; omega
      rw [if_pos hcond]
      have h1 : (m ++ d).length % A.BLOCK_SIZE = m.length % A.BLOCK_SIZE + d.length := by
        rw [List.length_append]
        have hsplit : m.length + d.length = A.BLOCK_SIZE * (m.length / A.BLOCK_SIZE)
            + (m.length % A.BLOCK_SIZE + d.length) := by omega
        rw [hsplit, Nat.mul_add_mod, Nat.mod_eq_of_lt (by omega)]
      have h2 : (m ++ d).length - (m ++ d).length % A.BLOCK_SIZE
          = m.length - m.length % A.BLOCK_SIZE := by
        rw [h1, List.length_append]; omega
      apply HashState.ext
      · show (Hash.absorbedOf A m).m_buffer ++ d = (m ++ d).drop _
        rw [hbuf, h2, List.drop_append_of_le_length (by omega)]
      · show (m.length - m.length % A.BLOCK_SIZE) % A.counterMod
            = ((m ++ d).length - (m ++ d).length % A.BLOCK_SIZE) % A.counterMod
        rw [h2]
      · show Hash.processBlocks A A.initV (m.take (m.length - m.length % A.BLOCK_SIZE))
            = Hash.processBlocks A A.initV
              ((m ++ d).take ((m ++ d).length - (m ++ d).length % A.BLOCK_SIZE))
        rw [h2, List.take_append_of_le_length (by omega)]
    · have hminEq : min (A.BLOCK_SIZE - m.length % A.BLOCK_SIZE) d.length
          = A.BLOCK_SIZE - m.length % A.BLOCK_SIZE :=
        Nat.min_eq_left (by omega)
      rw [hminEq]
      have hfilled : ((Hash.absorbedOf A m).m_buffer
          ++ d.take (A.BLOCK_SIZE - m.length % A.BLOCK_SIZE)).length = A.BLOCK_SIZE := by
        rw [List.length_append, hbuflen, List.length_take]; omega
      have hcond : ¬ (((Hash.absorbedOf A m).m_buffer
          ++ d.take (A.BLOCK_SIZE - m.length % A.BLOCK_SIZE)).length < A.BLOCK_SIZE) := by
        rw [hfilled]; omega
      rw [if_neg hcond]
      have hm1len : (m ++ d.take (A.BLOCK_SIZE - m.length % A.BLOCK_SIZE)).length
          = m.length + (A.BLOCK_SIZE - m.length % A.BLOCK_SIZE) := by
        rw [List.length_append, List.length_take]; omega
      have hm1mod : (m ++ d.take (A.BLOCK_SIZE - m.length % A.BLOCK_SIZE)).length
          % A.BLOCK_SIZE = 0 := by
        rw [hm1len]
        have hsplit : m.length + (A.BLOCK_SIZE - m.length % A.BLOCK_SIZE)
            = A.BLOCK_SIZE * (m.length / A.BLOCK_SIZE + 1) := by
          rw [Nat.mul_add, Nat.mul_one]; omega
        rw [hsplit, Nat.mul_mod_right]
      have hstate : { Hash.absorbedOf A m with
            m_buffer := ([] : List Byte)
            m_sizeCounter := ((Hash.absorbedOf A m).m_sizeCounter
              + ((Hash.absorbedOf A m).m_buffer
                ++ d.take (A.BLOCK_SIZE - m.length % A.BLOCK_SIZE)).length) % A.counterMod
            m_v := Hash.processBlocks A (Hash.absorbedOf A m).m_v
              ((Hash.absorbedOf A m).m_buffer
                ++ d.take (A.BLOCK_SIZE - m.length % A.BLOCK_SIZE)) }
          = Hash.absorbedOf A (m ++ d.take (A.BLOCK_SIZE - m.length % A.BLOCK_SIZE)) := by
        apply HashState.ext
        · show ([] : List Byte)
              = (m ++ d.take (A.BLOCK_SIZE - m.length % A.BLOCK_SIZE)).drop
                ((m ++ d.take (A.BLOCK_SIZE - m.length % A.BLOCK_SIZE)).length - (m ++ d.take (A.BLOCK_SIZE - m.length % A.BLOCK_SIZE)).length % A.BLOCK_SIZE)
          rw [hm1mod, Nat.sub_zero, List.drop_length]
        · show ((m.length - m.length % A.BLOCK_SIZE) % A.counterMod
              + ((Hash.absorbedOf A m).m_buffer
                ++ d.take (A.BLOCK_SIZE - m.length % A.BLOCK_SIZE)).length) % A.counterMod
              = ((m ++ d.take (A.BLOCK_SIZE - m.length % A.BLOCK_SIZE)).length - (m ++ d.take (A.BLOCK_SIZE - m.length % A.BLOCK_SIZE)).length % A.BLOCK_SIZE) % A.counterMod
          rw [hfilled, hm1mod, Nat.sub_zero, Nat.mod_add_mod, hm1len]
          congr 1
          omega
        · show Hash.processBlocks A
              (Hash.processBlocks A A.initV (m.take (m.length - m.length % A.BLOCK_SIZE)))
              ((Hash.absorbedOf A m).m_buffer ++ d.take (A.BLOCK_SIZE - m.length % A.BLOCK_SIZE))
              = Hash.processBlocks A A.initV
                ((m ++ d.take (A.BLOCK_SIZE - m.length % A.BLOCK_SIZE)).take
                  ((m ++ d.take (A.BLOCK_SIZE - m.length % A.BLOCK_SIZE)).length - (m ++ d.take (A.BLOCK_SIZE - m.length % A.BLOCK_SIZE)).length % A.BLOCK_SIZE))
          rw [hm1mod, Nat.sub_zero]
          have hsplitList : (m ++ d.take (A.BLOCK_SIZE - m.length % A.BLOCK_SIZE)).take
              (m ++ d.take (A.BLOCK_SIZE - m.length % A.BLOCK_SIZE)).length
              = m.take (m.length - m.length % A.BLOCK_SIZE)
                ++ ((Hash.absorbedOf A m).m_buffer
                  ++ d.take (A.BLOCK_SIZE - m.length % A.BLOCK_SIZE)) := by
            rw [List.take_length, hbuf, ← List.append_assoc, List.take_append_drop]
          rw [hsplitList, processBlocks_append A A.initV _ _ htkmod]
      rw [hstate, addDataTail_absorbedOf A hB _ _ hm1mod, List.append_assoc,
        List.take_append_drop]

theorem foldl_addData_absorbedOf (A : HashAlg σ) (hB : 0 < A.BLOCK_SIZE)
    (pieces : List (List Byte)) (m : List Byte) :
    pieces.foldl (Hash.addData A) (Hash.absorbedOf A m)
      = Hash.absorbedOf A (m ++ pieces.flatten) := by
  induction pieces generalizing m with
  | nil => simp
  | cons p ps ih =>
    rw [List.foldl_cons, addData_absorbedOf A hB, ih (m ++ p), List.flatten_cons,
      List.append_assoc]

theorem chunked_eq (A : HashAlg σ) (hB : 0 < A.BLOCK_SIZE) (pieces : List (List Byte)) :
    pieces.foldl (Hash.addData A) (Hash.initState A)
      = Hash.addData A (Hash.initState A) pieces.flatten := by
  rw [← absorbedOf_nil A, foldl_addData_absorbedOf A hB, addData_absorbedOf A hB,
    List.nil_append]

theorem counter_eq (A : HashAlg σ) (hB : 0 < A.BLOCK_SIZE) (pieces : List (List Byte)) :
    (pieces.foldl (Hash.addData A) (Hash.initState A)).m_sizeCounter
      = (pieces.flatten.length
        - (pieces.foldl (Hash.addData A) (Hash.initState A)).m_buffer.length)
        % A.counterMod := by
  rw [← absorbedOf_nil A, foldl_addData_absorbedOf A hB, List.nil_append]
  show (pieces.flatten.length - pieces.flatten.length % A.BLOCK_SIZE) % A.counterMod
    = (pieces.flatten.length
      - (pieces.flatten.drop
          (pieces.flatten.length - pieces.flatten.length % A.BLOCK_SIZE)).length)
      % A.counterMod
  rw [List.length_drop]
  congr 1
  have := Nat.mod_le pieces.flatten.length A.BLOCK_SIZE
  omega

theorem addData_nil (A : HashAlg σ) (hB : 0 < A.BLOCK_SIZE) (s : HashState σ)
    (h : s.m_buffer.length < A.BLOCK_SIZE) : Hash.addData A s [] = s := by
  by_cases hbe : s.m_buffer = []
  · simp only [Hash.addData]
    rw [if_pos hbe]
    simp only [Hash.addDataTail, List.length_nil]
    rw [if_pos hB]
    rw [← hbe]
  · simp only [Hash.addData]
    rw [if_neg hbe]
    simp only [List.length_nil, Nat.min_zero, List.take_nil, List.append_nil, List.drop_nil]
    rw [if_pos h]

/-!
Claim theorems.
-/

set_option maxRecDepth 20000 in
/-- Claim C1 (code bug). The claim states that `finalize` inserts the minimum
number of zero bytes (possibly zero) between the `0x80` byte and the length
field, and in particular that a pending buffer of exactly 55 bytes (111 for
SHA2-512-224) gets no zero fill and exactly one compressed block. The code
computes the fill after already appending `0x80`, without reducing `BLOCK_SIZE`
modulo `BLOCK_SIZE`: with 55 pending bytes it inserts 64 zero bytes and pads
to two blocks (128 bytes), and the resulting SHA2-256 digest differs from the
FIPS 180-4 digest of the same 55-byte message; likewise 111 pending bytes give
128 zero bytes and a 256-byte padded message for SHA2-512-224. -/
theorem sm3_sha2_padding_at_block_minus_lenfield :
    Hash.paddedMessage SM3.alg
        (Hash.addData SM3.alg (Hash.initState SM3.alg) (List.replicate 55 97))
      = List.replicate 55 97 ++ [128] ++ List.replicate 64 0 ++ [0, 0, 0, 0, 0, 0, 1, 184]
    ∧ (Hash.paddedMessage SM3.alg
        (Hash.addData SM3.alg (Hash.initState SM3.alg) (List.replicate 55 97))).length = 128
    ∧ Hash.paddedMessage SHA2_512_224.alg
        (Hash.addData SHA2_512_224.alg (Hash.initState SHA2_512_224.alg)
          (List.replicate 111 97))
      = List.replicate 111 97 ++ [128] ++ List.replicate 128 0 ++ beBytesFixed 16 888
    ∧ (Hash.paddedMessage SHA2_512_224.alg
        (Hash.addData SHA2_512_224.alg (Hash.initState SHA2_512_224.alg)
          (List.replicate 111 97))).length = 256
    ∧ SHA2_256.hashHex (List.replicate 55 97)
      ≠ "9f4390f8d30c2dd92ec9f095b65e2b9ae9b0a925a5258e241c9f1e910f734318" :=
  ⟨by decide, by decide, by decide, by decide, by decide⟩

/-- Claim C2. Chunking invariance: absorbing any list of consecutive pieces
with successive `addData` calls and finalizing gives the same digest (both
`toVector` and `toString`) as absorbing their concatenation in one call, for
SM3, SHA2-256 and SHA2-512-224. -/
theorem chunking_invariance (pieces : List (List Byte)) :
    (SM3.toVector (Hash.finalize SM3.alg
        (pieces.foldl (Hash.addData SM3.alg) (Hash.initState SM3.alg)))
      = SM3.hashVector pieces.flatten
    ∧ bytesToHex (SM3.toVector (Hash.finalize SM3.alg
        (pieces.foldl (Hash.addData SM3.alg) (Hash.initState SM3.alg))))
      = SM3.hashHex pieces.flatten)
    ∧ (SHA2_256.toVector (Hash.finalize SHA2_256.alg
        (pieces.foldl (Hash.addData SHA2_256.alg) (Hash.initState SHA2_256.alg)))
      = SHA2_256.hashVector pieces.flatten
    ∧ bytesToHex (SHA2_256.toVector (Hash.finalize SHA2_256.alg
        (pieces.foldl (Hash.addData SHA2_256.alg) (Hash.initState SHA2_256.alg))))
      = SHA2_256.hashHex pieces.flatten)
    ∧ (SHA2_512_224.toVector (Hash.finalize SHA2_512_224.alg
        (pieces.foldl (Hash.addData SHA2_512_224.alg) (Hash.initState SHA2_512_224.alg)))
      = SHA2_512_224.hashVector pieces.flatten
    ∧ bytesToHex (SHA2_512_224.toVector (Hash.finalize SHA2_512_224.alg
        (pieces.foldl (Hash.addData SHA2_512_224.alg) (Hash.initState SHA2_512_224.alg))))
      = SHA2_512_224.hashHex pieces.flatten) := by
  have h1 := chunked_eq SM3.alg (by decide) pieces
  have h2 := chunked_eq SHA2_256.alg (by decide) pieces
  have h3 := chunked_eq SHA2_512_224.alg (by decide) pieces
  refine ⟨⟨?_, ?_⟩, ⟨?_, ?_⟩, ?_, ?_⟩
  · exact congrArg SM3.toVector (congrArg (Hash.finalize SM3.alg) h1)
  · exact congrArg bytesToHex (congrArg SM3.toVector (congrArg (Hash.finalize SM3.alg) h1))
  · exact congrArg SHA2_256.toVector (congrArg (Hash.finalize SHA2_256.alg) h2)
  · exact congrArg bytesToHex
      (congrArg SHA2_256.toVector (congrArg (Hash.finalize SHA2_256.alg) h2))
  · exact congrArg SHA2_512_224.toVector (congrArg (Hash.finalize SHA2_512_224.alg) h3)
  · exact congrArg bytesToHex
      (congrArg SHA2_512_224.toVector (congrArg (Hash.finalize SHA2_512_224.alg) h3))

set_option maxRecDepth 20000 in
/-- Claim C3. A fresh SHA2_256 instance absorbing the three bytes of `"abc"`
and finalizing renders the FIPS 180-4 digest in lowercase hex. -/
theorem sha2_256_abc_vector :
    SHA2_256.hashHex [97, 98, 99]
      = "ba7816bf8f01cfea414140de5dae2223b00361a396177a9cb410ff61f20015ad" := by
  rfl

set_option maxRecDepth 20000 in
/-- Claim C4. A fresh SM3 instance absorbing the three bytes of `"abc"` and
finalizing renders the standard SM3 digest in lowercase hex. -/
theorem sm3_abc_vector :
    SM3.hashHex [97, 98, 99]
      = "66c7f0f462eeedd9d1f2d46bdc10e4e24167c4875cf2f7a2297da02b8f4ba8e0" := by
  rfl

theorem beBytesFixed8_explicit (i : Nat) :
    beBytesFixed 8 i = [rorByte i 56, rorByte i 48, rorByte i 40, rorByte i 32,
      rorByte i 24, rorByte i 16, rorByte i 8, rorByte i 0] := by
  simp only [beBytesFixed, rorByte, ← Nat.shiftRight_add, Nat.shiftRight_zero,
    List.nil_append, List.cons_append, List.append_nil]

/-- Claim C5. `toVector()` of SHA2-512-224 returns, for every state, exactly
the big-endian bytes of the first three 64-bit words followed by the top four
bytes of the fourth word — 28 bytes in total, with the remaining words absent
from the output; SM3 and SHA2-256 `toVector()` return 32 bytes. -/
theorem toVector_shape (buf : List Byte) (c v0 v1 v2 v3 v4 v5 v6 v7 : Nat) :
    SHA2_512_224.toVector ⟨buf, c, (v0, v1, v2, v3, v4, v5, v6, v7)⟩
      = beBytesFixed 8 v0 ++ beBytesFixed 8 v1 ++ beBytesFixed 8 v2
        ++ (beBytesFixed 8 v3).take 4
    ∧ (SHA2_512_224.toVector ⟨buf, c, (v0, v1, v2, v3, v4, v5, v6, v7)⟩).length = 28
    ∧ (SM3.toVector ⟨buf, c, (v0, v1, v2, v3, v4, v5, v6, v7)⟩).length = 32
    ∧ (SHA2_256.toVector ⟨buf, c, (v0, v1, v2, v3, v4, v5, v6, v7)⟩).length = 32 := by
  have h512 : SHA2_512_224.toVector ⟨buf, c, (v0, v1, v2, v3, v4, v5, v6, v7)⟩
      = beBytesFixed 8 v0 ++ beBytesFixed 8 v1 ++ beBytesFixed 8 v2
        ++ (beBytesFixed 8 v3).take 4 := by
    simp only [SHA2_512_224.toVector, beBytesFixed8_explicit, List.take,
      show List.range 8 = [0, 1, 2, 3, 4, 5, 6, 7] from rfl,
      List.map_cons, List.map_nil, List.foldl_cons, List.foldl_nil, List.nil_append,
      List.cons_append, List.append_nil]
    simp [rorByte, ← Nat.shiftRight_add]
  refine ⟨h512, ?_, ?_, ?_⟩
  · rw [h512]
    simp [beBytesFixed8_explicit]
  · simp [SM3.toVector]
  · simp [SHA2_256.toVector]

/-- Claim C6 (counterexample). The claim says the size counter equals the
total number of message bytes after every `addData` call; but `addData` parks
short input in the pending buffer without touching `m_sizeCounter`: after
absorbing one byte into a fresh SM3 object the counter is 0, not 1. -/
theorem sizeCounter_after_one_byte :
    ¬ ((Hash.addData SM3.alg (Hash.initState SM3.alg) [97]).m_sizeCounter = 1) := by
  decide

/-- Claim C6 (amended). After any finite sequence of `addData` calls on a
fresh instance, the size counter equals the total number of absorbed bytes
minus the bytes still pending in the buffer (i.e. the bytes already
compressed), reduced modulo the counter width (`2^64`, resp. `2^128`). -/
theorem sizeCounter_counts_compressed_bytes (pieces : List (List Byte)) :
    (pieces.foldl (Hash.addData SM3.alg) (Hash.initState SM3.alg)).m_sizeCounter
      = (pieces.flatten.length
        - (pieces.foldl (Hash.addData SM3.alg) (Hash.initState SM3.alg)).m_buffer.length)
        % 2 ^ 64
    ∧ (pieces.foldl (Hash.addData SHA2_256.alg) (Hash.initState SHA2_256.alg)).m_sizeCounter
      = (pieces.flatten.length
        - (pieces.foldl (Hash.addData SHA2_256.alg)
            (Hash.initState SHA2_256.alg)).m_buffer.length)
        % 2 ^ 64
    ∧ (pieces.foldl (Hash.addData SHA2_512_224.alg)
        (Hash.initState SHA2_512_224.alg)).m_sizeCounter
      = (pieces.flatten.length
        - (pieces.foldl (Hash.addData SHA2_512_224.alg)
            (Hash.initState SHA2_512_224.alg)).m_buffer.length)
        % 2 ^ 128 :=
  ⟨counter_eq SM3.alg (by decide) pieces, counter_eq SHA2_256.alg (by decide) pieces,
   counter_eq SHA2_512_224.alg (by decide) pieces⟩

/-- Claim C9. `reset()` overwrites every field with the fresh-object values,
so for any prior state (any usage history, including a finalized one),
resetting and then absorbing `x` and finalizing yields exactly the digest of a
freshly constructed instance, for all three algorithms. -/
theorem reset_equivalence (s3 s6 s5 : HashState Words8) (x : List Byte) :
    (SM3.toVector (Hash.finalize SM3.alg
        (Hash.addData SM3.alg (Hash.reset SM3.alg s3) x)) = SM3.hashVector x
    ∧ bytesToHex (SM3.toVector (Hash.finalize SM3.alg
        (Hash.addData SM3.alg (Hash.reset SM3.alg s3) x))) = SM3.hashHex x)
    ∧ (SHA2_256.toVector (Hash.finalize SHA2_256.alg
        (Hash.addData SHA2_256.alg (Hash.reset SHA2_256.alg s6) x)) = SHA2_256.hashVector x
    ∧ bytesToHex (SHA2_256.toVector (Hash.finalize SHA2_256.alg
        (Hash.addData SHA2_256.alg (Hash.reset SHA2_256.alg s6) x))) = SHA2_256.hashHex x)
    ∧ (SHA2_512_224.toVector (Hash.finalize SHA2_512_224.alg
        (Hash.addData SHA2_512_224.alg (Hash.reset SHA2_512_224.alg s5) x))
      = SHA2_512_224.hashVector x
    ∧ bytesToHex (SHA2_512_224.toVector (Hash.finalize SHA2_512_224.alg
        (Hash.addData SHA2_512_224.alg (Hash.reset SHA2_512_224.alg s5) x)))
      = SHA2_512_224.hashHex x) :=
  ⟨⟨rfl, rfl⟩, ⟨rfl, rfl⟩, rfl, rfl⟩

/-- Claim C10. With input of length zero, `addData` is the identity on every
state whose pending buffer respects the `< BLOCK_SIZE` invariant: buffer,
counter and chaining state are all unchanged (hence every later digest is
unchanged too). -/
theorem addData_empty_input (s : HashState Words8) :
    (s.m_buffer.length < 64 →
      Hash.addData SM3.alg s [] = s ∧ Hash.addData SHA2_256.alg s [] = s)
    ∧ (s.m_buffer.length < 128 → Hash.addData SHA2_512_224.alg s [] = s) :=
  ⟨fun h => ⟨addData_nil SM3.alg (by decide) s h, addData_nil SHA2_256.alg (by decide) s h⟩,
   fun h => addData_nil SHA2_512_224.alg (by decide) s h⟩

theorem shiftLeft_lor_eq_add (a b k : Nat) (h : b < 2 ^ k) : (a <<< k) ||| b = a <<< k + b := by
  apply Nat.eq_of_testBit_eq
  intro i
  rw [Nat.testBit_or, Nat.testBit_shiftLeft, Nat.shiftLeft_eq]
  rcases Nat.lt_or_ge i k with hik | hik
  · have hge : ¬ (i ≥ k) := Nat.not_le.mpr hik
    simp only [hge, decide_eq_false, Bool.false_and, Bool.false_or]
    have hmod : (2 ^ k * a + b) % 2 ^ k = b := by
      rw [Nat.mul_add_mod, Nat.mod_eq_of_lt h]
    calc b.testBit i = ((2 ^ k * a + b) % 2 ^ k).testBit i := by rw [hmod]
      _ = (decide (i < k) && (2 ^ k * a + b).testBit i) := Nat.testBit_mod_two_pow ..
      _ = (2 ^ k * a + b).testBit i := by simp [hik]
      _ = (a * 2 ^ k + b).testBit i := by ring_nf
  · simp only [hik, decide_eq_true, Bool.true_and]
    have hdiv : (a * 2 ^ k + b) / 2 ^ i = a / 2 ^ (i - k) := by
      have h1 : (a * 2 ^ k + b) / 2 ^ k = a := by
        rw [Nat.mul_comm a (2 ^ k), Nat.mul_add_div (Nat.pos_pow_of_pos k (by norm_num)),
          Nat.div_eq_of_lt h, Nat.add_zero]
      have h2 : (2 : Nat) ^ k * 2 ^ (i - k) = 2 ^ i := by
        rw [← pow_add]
        congr 1
        omega
      rw [← h2, ← Nat.div_div_eq_div_mul, h1]
    have hb0 : b / 2 ^ i = 0 :=
      Nat.div_eq_of_lt (lt_of_lt_of_le h (Nat.pow_le_pow_right (by norm_num) hik))
    rw [Nat.testBit_to_div_mod, Nat.testBit_to_div_mod, Nat.testBit_to_div_mod, hdiv, hb0]
    simp

set_option maxRecDepth 8000 in
/-- Claim C8. Reading a `Uint128` value as `high * 2^64 + low`: `operator+=`
adds a `uint64_t` modulo `2^128`, carrying from the low into the high half;
the `* 8` operator multiplies by 8 modulo `2^128`, shifting the top three bits
of the low half into the high half; and assignment from a `uint64_t` yields
high `0`, low `n`. -/
theorem uint128_ops (lo hi n : Nat) (hlo : lo < 2 ^ 64) (hhi : hi < 2 ^ 64)
    (hn : n < 2 ^ 64) :
    (SHA2_512_224.Uint128.addU64 ⟨lo, hi⟩ n).toNat
        = ((SHA2_512_224.Uint128.mk lo hi).toNat + n) % 2 ^ 128
    ∧ (SHA2_512_224.Uint128.mul8 ⟨lo, hi⟩).toNat
        = ((SHA2_512_224.Uint128.mk lo hi).toNat * 8) % 2 ^ 128
    ∧ SHA2_512_224.Uint128.assign n = ⟨n, 0⟩
    ∧ (SHA2_512_224.Uint128.assign n).toNat = n := by
  have e64 : (2 : Nat) ^ 64 = 18446744073709551616 := by norm_num
  have e128 : (2 : Nat) ^ 128 = 340282366920938463463374607431768211456 := by norm_num
  refine ⟨?_, ?_, rfl, ?_⟩
  · simp only [SHA2_512_224.Uint128.addU64]
    split_ifs with hc
    · show (hi + 1) % 2 ^ 64 * 2 ^ 64 + (lo + n) % 2 ^ 64
          = (hi * 2 ^ 64 + lo + n) % 2 ^ 128
      rw [e128]
      rw [e64] at hc hlo hhi hn ⊢
      omega
    · show hi * 2 ^ 64 + (lo + n) % 2 ^ 64 = (hi * 2 ^ 64 + lo + n) % 2 ^ 128
      rw [e128]
      rw [e64] at hc hlo hhi hn ⊢
      omega
  · show ((hi <<< 3) % 2 ^ 64 ||| (lo >>> 61) &&& 255) * 2 ^ 64 + (lo <<< 3) % 2 ^ 64
        = (hi * 2 ^ 64 + lo) * 8 % 2 ^ 128
    have hlodiv : lo / 2 ^ 61 < 2 ^ 3 := by
      apply Nat.div_lt_of_lt_mul
      calc lo < 2 ^ 64 := hlo
        _ = 2 ^ 61 * 2 ^ 3 := by norm_num
    have hmsb : (lo >>> 61) &&& 255 = lo / 2 ^ 61 := by
      have h1 : lo >>> 61 = lo / 2 ^ 61 := Nat.shiftRight_eq_div_pow lo 61
      have h2 := Nat.and_pow_two_sub_one_eq_mod (lo / 2 ^ 61) 8
      rw [h1, show (255 : Nat) = 2 ^ 8 - 1 from by norm_num, h2,
        Nat.mod_eq_of_lt (lt_trans hlodiv (by norm_num))]
    have hsh : (hi <<< 3) % 2 ^ 64 = (hi % 2 ^ 61) <<< 3 := by
      rw [Nat.shiftLeft_eq, Nat.shiftLeft_eq,
        show (2 : Nat) ^ 64 = 2 ^ 61 * 2 ^ 3 by norm_num]
      exact Nat.mul_mod_mul_right (2 ^ 3) hi (2 ^ 61)
    rw [hmsb, hsh, shiftLeft_lor_eq_add _ _ 3 hlodiv, Nat.shiftLeft_eq, Nat.shiftLeft_eq]
    rw [e128]
    rw [show (2 : Nat) ^ 3 = 8 from by norm_num,
      show (2 : Nat) ^ 61 = 2305843009213693952 from by norm_num] at hlodiv ⊢
    rw [e64] at hlo hhi ⊢
    omega
  · show 0 * 2 ^ 64 + n = n
    omega

/-- Concrete check of `uint128_ops` at values that exercise both the low-half
carry and the cross-half shift. -/
theorem uint128_ops_check :
    ((2 ^ 63 + 5 : Nat) < 2 ^ 64 ∧ (2 ^ 64 - 1 : Nat) < 2 ^ 64 ∧ (3 : Nat) < 2 ^ 64)
    ∧ (SHA2_512_224.Uint128.addU64 ⟨2 ^ 63 + 5, 3⟩ (2 ^ 64 - 1)).toNat
        = ((SHA2_512_224.Uint128.mk (2 ^ 63 + 5) 3).toNat + (2 ^ 64 - 1)) % 2 ^ 128
    ∧ (SHA2_512_224.Uint128.mul8 ⟨2 ^ 63 + 5, 3⟩).toNat
        = ((SHA2_512_224.Uint128.mk (2 ^ 63 + 5) 3).toNat * 8) % 2 ^ 128
    ∧ SHA2_512_224.Uint128.assign (2 ^ 64 - 1) = ⟨2 ^ 64 - 1, 0⟩
    ∧ (SHA2_512_224.Uint128.assign (2 ^ 64 - 1)).toNat = 2 ^ 64 - 1 :=
  ⟨⟨by norm_num, by norm_num, by norm_num⟩,
   (uint128_ops (2 ^ 63 + 5) 3 (2 ^ 64 - 1) (by norm_num) (by norm_num) (by norm_num)).1,
   (uint128_ops (2 ^ 63 + 5) 3 (2 ^ 64 - 1) (by norm_num) (by norm_num) (by norm_num)).2.1,
   (uint128_ops (2 ^ 63 + 5) 3 (2 ^ 64 - 1) (by norm_num) (by norm_num) (by norm_num)).2.2.1,
   (uint128_ops (2 ^ 63 + 5) 3 (2 ^ 64 - 1) (by norm_num) (by norm_num) (by norm_num)).2.2.2⟩

theorem beBytesFixed_length (n v : Nat) : (beBytesFixed n v).length = n := by
  induction n generalizing v with
  | zero => rfl
  | succ k ih =>
    show (beBytesFixed k (v >>> 8) ++ [v &&& 255]).length = k + 1
    rw [List.length_append, ih]
    rfl

theorem beVal_beBytesFixed (n v : Nat) : beVal (beBytesFixed n v) = v % 256 ^ n := by
  induction n generalizing v with
  | zero =>
    show beVal [] = v % 1
    simp [beVal, Nat.mod_one]
  | succ k ih =>
    show beVal (beBytesFixed k (v >>> 8) ++ [v &&& 255]) = v % 256 ^ (k + 1)
    have hb : beVal (beBytesFixed k (v >>> 8) ++ [v &&& 255])
        = beVal (beBytesFixed k (v >>> 8)) * 256 + (v &&& 255) := by
      unfold beVal
      rw [List.foldl_append]
      rfl
    have h1 : v >>> 8 = v / 256 := by
      rw [Nat.shiftRight_eq_div_pow]
    have h2 : v &&& 255 = v % 256 := by
      rw [show (255 : Nat) = 2 ^ 8 - 1 from by norm_num, Nat.and_pow_two_sub_one_eq_mod]
    rw [hb, ih, h1, h2]
    have hdm := Nat.div_add_mod v 256
    have hdm2 := Nat.div_add_mod (v / 256) (256 ^ k)
    have hlt : v % 256 < 256 := Nat.mod_lt _ (by norm_num)
    have hlt2 : v / 256 % 256 ^ k < 256 ^ k :=
      Nat.mod_lt _ (Nat.pos_pow_of_pos k (by norm_num))
    have hv : v = 256 ^ (k + 1) * (v / 256 / 256 ^ k)
        + (v / 256 % 256 ^ k * 256 + v % 256) := by
      conv_lhs => rw [← hdm, ← hdm2]
      ring
    have hXlt : v / 256 % 256 ^ k * 256 + v % 256 < 256 ^ (k + 1) := by
      rw [show (256 : Nat) ^ (k + 1) = 256 ^ k * 256 from by ring]
      omega
    conv_rhs => rw [hv]
    rw [Nat.mul_add_mod]
    exact (Nat.mod_eq_of_lt hXlt).symm

theorem leftEncode_val_lt (v : Nat) (hv : v < 2 ^ 64) :
    v < 256 ^ (1 + (List.range 8).countP fun k => decide (256 ^ (k + 1) ≤ v)) := by
  by_contra hcon
  push_neg at hcon
  rcases Nat.lt_or_ge ((List.range 8).countP fun k => decide (256 ^ (k + 1) ≤ v)) 8
    with h8 | h8
  · have hall : ∀ k ∈ List.range
        (((List.range 8).countP fun k => decide (256 ^ (k + 1) ≤ v)) + 1),
        (fun k => decide (256 ^ (k + 1) ≤ v)) k = true := by
      intro k hk
      have hk' := List.mem_range.mp hk
      simp only [decide_eq_true_eq]
      calc (256 : Nat) ^ (k + 1)
          ≤ 256 ^ (1 + (List.range 8).countP fun k => decide (256 ^ (k + 1) ≤ v)) :=
            Nat.pow_le_pow_right (by norm_num) (by omega)
        _ ≤ v := hcon
    have hc1 := List.countP_eq_length.mpr hall
    rw [List.length_range] at hc1
    have hmono := (List.range_sublist.mpr
        (by omega : ((List.range 8).countP fun k => decide (256 ^ (k + 1) ≤ v)) + 1 ≤ 8)).countP_le
      (fun k => decide (256 ^ (k + 1) ≤ v))
    omega
  · have h9 : (256 : Nat) ^ 9
        ≤ 256 ^ (1 + (List.range 8).countP fun k => decide (256 ^ (k + 1) ≤ v)) :=
      Nat.pow_le_pow_right (by norm_num) (by omega)
    have h264 : (2 : Nat) ^ 64 < 256 ^ 9 := by norm_num
    omega

/-- Claim C7. `nextData(e)` feeds the wrapped cSHAKE primitive exactly the
left-encoding of `len(e) * 8` followed by the bytes of `e`; `finalize()`
feeds the right-encoding of the configured output bit length and then
finalizes the wrapped primitive; the right-encoding equals the left-encoding
with its length byte moved from front to back; and the left-encoding is the
self-describing big-endian encoding (leading byte = byte count of the rest,
remaining bytes decode big-endian to the encoded value). -/
theorem tupleHash_framing (t : TupleHash.State) (e : List Byte)
    (he : e.length * 8 < 2 ^ 64) (hd : t.m_digestLength * 8 < 2 ^ 32) :
    (TupleHash.nextData t e).m_cshake.fed
        = t.m_cshake.fed ++ TupleHash.leftEncode (e.length * 8) ++ e
    ∧ (TupleHash.finalize t).m_cshake.fed
        = t.m_cshake.fed ++ TupleHash.rightEncode (t.m_digestLength * 8)
    ∧ (TupleHash.finalize t).m_cshake.finalized = true
    ∧ TupleHash.rightEncode (t.m_digestLength * 8)
        = (TupleHash.leftEncode (t.m_digestLength * 8)).drop 1
          ++ [(TupleHash.leftEncode (t.m_digestLength * 8)).headD 0]
    ∧ (TupleHash.leftEncode (e.length * 8)).headD 0
        = (TupleHash.leftEncode (e.length * 8)).length - 1
    ∧ beVal ((TupleHash.leftEncode (e.length * 8)).drop 1) = e.length * 8 := by
  refine ⟨?_, ?_, ?_, rfl, ?_, ?_⟩
  · simp only [TupleHash.nextData, TupleHash.addDataImpl, TupleHash.cshakeAddData,
      Nat.mod_eq_of_lt he, List.append_assoc]
  · simp only [TupleHash.finalize, TupleHash.addDataImpl, TupleHash.cshakeAddData,
      TupleHash.cshakeFinalize, Nat.mod_eq_of_lt hd]
  · simp only [TupleHash.finalize, TupleHash.addDataImpl, TupleHash.cshakeAddData,
      TupleHash.cshakeFinalize]
  · simp only [TupleHash.leftEncode, List.headD_cons, List.length_cons, beBytesFixed_length,
      Nat.add_sub_cancel]
  · show beVal (beBytesFixed (1 + (List.range 8).countP fun k =>
        decide (256 ^ (k + 1) ≤ e.length * 8)) (e.length * 8)) = e.length * 8
    rw [beVal_beBytesFixed, Nat.mod_eq_of_lt (leftEncode_val_lt (e.length * 8) he)]

/-- Concrete check of `tupleHash_framing` for a 3-byte element and a 32-byte
output length. -/
theorem tupleHash_framing_check :
    (([97, 98, 99] : List Byte).length * 8 < 2 ^ 64
      ∧ (TupleHash.State.mk ⟨[5, 6], false⟩ 32).m_digestLength * 8 < 2 ^ 32)
    ∧ (TupleHash.nextData ⟨⟨[5, 6], false⟩, 32⟩ [97, 98, 99]).m_cshake.fed
        = [5, 6] ++ TupleHash.leftEncode 24 ++ [97, 98, 99]
    ∧ (TupleHash.finalize ⟨⟨[5, 6], false⟩, 32⟩).m_cshake.fed
        = [5, 6] ++ TupleHash.rightEncode 256
    ∧ (TupleHash.finalize ⟨⟨[5, 6], false⟩, 32⟩).m_cshake.finalized = true
    ∧ beVal ((TupleHash.leftEncode 24).drop 1) = 24 :=
  ⟨⟨by decide, by decide⟩,
   (tupleHash_framing ⟨⟨[5, 6], false⟩, 32⟩ [97, 98, 99] (by decide) (by decide)).1,
   (tupleHash_framing ⟨⟨[5, 6], false⟩, 32⟩ [97, 98, 99] (by decide) (by decide)).2.1,
   (tupleHash_framing ⟨⟨[5, 6], false⟩, 32⟩ [97, 98, 99] (by decide) (by decide)).2.2.1,
   (tupleHash_framing ⟨⟨[5, 6], false⟩, 32⟩ [97, 98, 99] (by decide) (by decide)).2.2.2.2.2⟩

/-- Concrete check of `addData_empty_input` at a state with three pending
bytes. -/
theorem addData_empty_input_check :
    ((⟨[1, 2, 3], 7, SM3.initV⟩ : HashState Words8).m_buffer.length < 64
      ∧ (⟨[1, 2, 3], 7, SM3.initV⟩ : HashState Words8).m_buffer.length < 128)
    ∧ Hash.addData SM3.alg ⟨[1, 2, 3], 7, SM3.initV⟩ [] = ⟨[1, 2, 3], 7, SM3.initV⟩
    ∧ Hash.addData SHA2_256.alg ⟨[1, 2, 3], 7, SM3.initV⟩ [] = ⟨[1, 2, 3], 7, SM3.initV⟩
    ∧ Hash.addData SHA2_512_224.alg ⟨[1, 2, 3], 7, SM3.initV⟩ [] = ⟨[1, 2, 3], 7, SM3.initV⟩ :=
  ⟨⟨by decide, by decide⟩,
   ((addData_empty_input ⟨[1, 2, 3], 7, SM3.initV⟩).1 (by decide)).1,
   ((addData_empty_input ⟨[1, 2, 3], 7, SM3.initV⟩).1 (by decide)).2,
   (addData_empty_input ⟨[1, 2, 3], 7, SM3.initV⟩).2 (by decide)⟩

end Chocobo1
